import Mathlib

/-!
Shallow embedding of `LocalStorageCryptoStore` (matrix-js-sdk,
`src/crypto/store/localStorage-crypto-store.ts`).

The backing `Storage` substrate is modelled as an ordered association list
from string keys to raw stored values.  A raw stored value is either the
JSON value that `JSON.parse` recovers from the stored text (`RawVal.valid`)
or text that is not valid JSON (`RawVal.corrupt`); `JSON.stringify` always
writes a valid value.  `store.key(i)` enumerates keys in list order,
`setItem` replaces in place or appends, `removeItem` deletes the key.

Every store method is translated directly from the source: methods that
take a result callback `func` are modelled as functions returning the value
passed to `func` paired with the (unchanged, since they never call
`setItem`) store; mutating methods return the new store.
-/

/-- A JSON value, as produced by JSON.parse.  JVal.null stands for the
JavaScript null (JSON.parse of the text "null", and also what getJsonItem
hands to callers for an absent or corrupt key). -/
inductive JVal where
  | null
  | bool (b : Bool)
  | num (n : Int)
  | str (s : String)
  | arr (elems : List JVal)
  | obj (fields : List (String × JVal))

/-- What one key of the substrate holds: the JSON value its text parses to,
or unparseable text. -/
inductive RawVal where
  | valid (v : JVal)
  | corrupt

/-- The localStorage substrate: an ordered list of (key, stored value). -/
abbrev Store := List (String × RawVal)

/-- store.getItem: the value stored under the key (first occurrence). -/
def storGet (st : Store) (k : String) : Option RawVal :=
  List.lookup k st

/-- store.setItem: replace the value under an existing key in place, else
append the new pair. -/
def storSet (st : Store) (k : String) (v : RawVal) : Store :=
  if st.any (fun p => p.1 == k) then
    st.map (fun p => if p.1 == k then (k, v) else p)
  else
    st ++ [(k, v)]

/-- store.removeItem. -/
def storRemove (st : Store) (k : String) : Store :=
  st.filter (fun p => !(p.1 == k))

/-- getJsonItem: JSON.parse(store.getItem(key)); an absent key gives null,
and a parse error is logged and gives null.  None models the JS null
result. -/
def getJsonItem (st : Store) (k : String) : Option JVal :=
  match storGet st k with
  | none => none
  | some .corrupt => none
  | some (.valid v) => some v

/-- setJsonItem: store.setItem(key, JSON.stringify(val)). -/
def setJsonItem (st : Store) (k : String) (v : JVal) : Store :=
  storSet st k (.valid v)

/-- JavaScript falsiness of a parsed JSON value (for the || operator). -/
def jsFalsy : JVal → Bool
  | .null => true
  | .bool b => !b
  | .num n => n == 0
  | .str s => s == ""
  | _ => false

/-- JavaScript `x || d` over a possibly-null parsed value. -/
def jsOrElse (x : Option JVal) (d : JVal) : JVal :=
  match x with
  | none => d
  | some v => if jsFalsy v then d else v

/-- JavaScript `x ?? d` over a possibly-null parsed value. -/
def jsNullish (x : Option JVal) (d : JVal) : JVal :=
  match x with
  | none => d
  | some .null => d
  | some v => v

/-- Object.entries of a parsed JSON value (Object.keys and Object.values
are its first and second projections; a string or an array enumerates its
index-keyed elements, primitives have none). -/
def jsObjEntries : JVal → List (String × JVal)
  | .obj fs => fs
  | .arr es => es.enum.map (fun p => (toString p.1, p.2))
  | .str s => s.data.enum.map (fun p => (toString p.1, JVal.str (String.mk [p.2])))
  | _ => []

/-- The JavaScript `k in v` membership test (own keys). -/
def jsHasKey (v : JVal) (k : String) : Bool :=
  (jsObjEntries v).any (fun p => p.1 == k)

/-- Property assignment obj[k] = v on an object's field list: overwrite the
key in place if present, else append it. -/
def objSet (l : List (String × JVal)) (k : String) (v : JVal) : List (String × JVal) :=
  if l.any (fun p => p.1 == k) then
    l.map (fun p => if p.1 == k then (k, v) else p)
  else
    l ++ [(k, v)]

/-- Property deletion `delete obj[k]`. -/
def objDelete (l : List (String × JVal)) (k : String) : List (String × JVal) :=
  l.filter (fun p => !(p.1 == k))

/-- JavaScript String.prototype.startsWith. -/
def strStartsWith (s p : String) : Bool :=
  p.data.isPrefixOf s.data

/-- JavaScript s.slice(n): the characters from offset n on. -/
def strSliceFrom (s : String) (n : Nat) : String :=
  String.mk (s.data.drop n)

/-- JavaScript s.slice(a, b): the characters of [a, b). -/
def strSlice (s : String) (a b : Nat) : String :=
  String.mk ((s.data.take b).drop a)

/-- Helper for jsSplit: accumulate the current component in reverse. -/
def jsSplitAux (sep : Char) : List Char → List Char → List String
  | [], cur => [String.mk cur.reverse]
  | c :: cs, cur =>
    if c == sep then String.mk cur.reverse :: jsSplitAux sep cs []
    else jsSplitAux sep cs (c :: cur)

/-- JavaScript s.split(sep) for a one-character separator. -/
def jsSplit (s : String) (sep : Char) : List String :=
  jsSplitAux sep s.data []

/-- Modelled from the spec: SESSION_BATCH_SIZE is imported from base.ts,
which is not among the repository files provided here; the spec fixes it
only as a positive constant shared by all batch operations (its upstream
value is 50).  No claim below depends on more than its positivity. -/
def SESSION_BATCH_SIZE : Nat := 50

/-- Modelled from the spec: MigrationState is an enum defined in base.ts
(not among the provided files) whose "not started" value getMigrationState
returns by default; its JSON encoding is modelled as the number 0. -/
def MigrationState.NOT_STARTED : JVal := .num 0

def E2E_PREFIX : String := "crypto."

def KEY_END_TO_END_MIGRATION_STATE : String := E2E_PREFIX ++ "migration"

def KEY_END_TO_END_ACCOUNT : String := E2E_PREFIX ++ "account"

def KEY_CROSS_SIGNING_KEYS : String := E2E_PREFIX ++ "cross_signing_keys"

def KEY_INBOUND_SESSION_PREFIX : String := E2E_PREFIX ++ "inboundgroupsessions/"

def KEY_INBOUND_SESSION_WITHHELD_PREFIX : String :=
  E2E_PREFIX ++ "inboundgroupsessions.withheld/"

def KEY_ROOMS_PREFIX : String := E2E_PREFIX ++ "rooms/"

def KEY_SESSIONS_NEEDING_BACKUP : String := E2E_PREFIX ++ "sessionsneedingbackup"

def keyEndToEndSessions (deviceKey : String) : String :=
  E2E_PREFIX ++ "sessions/" ++ deviceKey

def keyEndToEndInboundGroupSession (senderKey sessionId : String) : String :=
  KEY_INBOUND_SESSION_PREFIX ++ senderKey ++ "/" ++ sessionId

def keyEndToEndInboundGroupSessionWithheld (senderKey sessionId : String) : String :=
  KEY_INBOUND_SESSION_WITHHELD_PREFIX ++ senderKey ++ "/" ++ sessionId

def keyEndToEndRoomsPrefix (roomId : String) : String :=
  KEY_ROOMS_PREFIX ++ roomId

/-- LocalStorageCryptoStore.exists / containsData. -/
def containsData (st : Store) : Bool :=
  st.any (fun p => strStartsWith p.1 E2E_PREFIX)

/-- getMigrationState: getJsonItem(store, KEY) ?? MigrationState.NOT_STARTED. -/
def getMigrationState (st : Store) : JVal :=
  jsNullish (getJsonItem st KEY_END_TO_END_MIGRATION_STATE) MigrationState.NOT_STARTED

/-- setMigrationState. -/
def setMigrationState (st : Store) (migrationState : JVal) : Store :=
  setJsonItem st KEY_END_TO_END_MIGRATION_STATE migrationState

/-- countEndToEndSessions: scan all keys, and for each key under the
sessions prefix add Object.keys(sessions ?? \x7b\x7d).length.  The count
handed to func is paired with the store, which the method never writes. -/
def countEndToEndSessions (st : Store) : Nat × Store :=
  ((st.map Prod.fst).foldl
    (fun c k =>
      if strStartsWith k (keyEndToEndSessions "") then
        c + (jsObjEntries (jsNullish (getJsonItem st k) (.obj []))).length
      else c)
    0, st)

/-- Fix-up of one stored session value: an old bare-string pickle becomes
an object. -/
def fixSession : JVal → JVal
  | .str s => .obj [("session", .str s)]
  | v => v

/-- LocalStorageCryptoStore._getEndToEndSessions: decode the per-device
mapping and normalize legacy bare-string entries on the fly. -/
def _getEndToEndSessions (st : Store) (deviceKey : String) : List (String × JVal) :=
  let sessions := getJsonItem st (keyEndToEndSessions deviceKey)
  (jsObjEntries (jsOrElse sessions (.obj []))).map (fun p => (p.1, fixSession p.2))

/-- getEndToEndSession: func(sessions[sessionId] ?? \x7b\x7d); the value
handed to func, paired with the store the method never writes. -/
def getEndToEndSession (st : Store) (deviceKey sessionId : String) : JVal × Store :=
  (jsNullish (List.lookup sessionId (_getEndToEndSessions st deviceKey)) (.obj []), st)

/-- getEndToEndSessions (all sessions of one device). -/
def getEndToEndSessions (st : Store) (deviceKey : String) :
    List (String × JVal) × Store :=
  (_getEndToEndSessions st deviceKey, st)

/-- storeEndToEndSession: read-modify-write of the whole per-device
mapping. -/
def storeEndToEndSession (st : Store) (deviceKey sessionId : String)
    (sessionInfo : JVal) : Store :=
  let sessions := _getEndToEndSessions st deviceKey
  setJsonItem st (keyEndToEndSessions deviceKey)
    (.obj (objSet sessions sessionId sessionInfo))

/-- Inner loop of getEndToEndSessionsBatch: push the device's sessions one
by one, reporting true when the batch size was reached (the early
return). -/
def pushSessionsUpTo : List JVal → List JVal → List JVal × Bool
  | acc, [] => (acc, false)
  | acc, v :: vs =>
    let acc2 := acc ++ [v]
    if SESSION_BATCH_SIZE ≤ acc2.length then (acc2, true)
    else pushSessionsUpTo acc2 vs

/-- Key scan of getEndToEndSessionsBatch.  Note the source derives the
device key as key.split("/")[1], not as the whole suffix after the
prefix. -/
def olmBatchScan (st : Store) : List String → List JVal → List JVal
  | [], acc => acc
  | k :: ks, acc =>
    if strStartsWith k (keyEndToEndSessions "") then
      let deviceKey := (jsSplit k '/').getD 1 ""
      match pushSessionsUpTo acc ((_getEndToEndSessions st deviceKey).map Prod.snd) with
      | (acc2, true) => acc2
      | (acc2, false) => olmBatchScan st ks acc2
    else olmBatchScan st ks acc

/-- getEndToEndSessionsBatch: null when the scan found nothing, else the
batch, paired with the store the method never writes. -/
def getEndToEndSessionsBatch (st : Store) : Option (List JVal) × Store :=
  let result := olmBatchScan st (st.map Prod.fst) []
  (if result.length = 0 then none else some result, st)

/-- deleteEndToEndSessionsBatch: remove each (deviceKey, sessionId) from
its device mapping, dropping the key when the mapping becomes empty. -/
def deleteEndToEndSessionsBatch : Store → List (String × String) → Store
  | st, [] => st
  | st, (deviceKey, sessionId) :: rest =>
    let deviceSessions := _getEndToEndSessions st deviceKey
    let remaining := objDelete deviceSessions sessionId
    let st2 :=
      if remaining.length = 0 then
        storRemove st (keyEndToEndSessions deviceKey)
      else
        setJsonItem st (keyEndToEndSessions deviceKey) (.obj remaining)
    deleteEndToEndSessionsBatch st2 rest

/-- getEndToEndInboundGroupSession: the session data and its withheld
companion, two independent lookups, paired with the unchanged store. -/
def getEndToEndInboundGroupSession (st : Store)
    (senderCurve25519Key sessionId : String) :
    (Option JVal × Option JVal) × Store :=
  ((getJsonItem st (keyEndToEndInboundGroupSession senderCurve25519Key sessionId),
    getJsonItem st (keyEndToEndInboundGroupSessionWithheld senderCurve25519Key sessionId)),
   st)

/-- storeEndToEndInboundGroupSession. -/
def storeEndToEndInboundGroupSession (st : Store)
    (senderCurve25519Key sessionId : String) (sessionData : JVal) : Store :=
  setJsonItem st (keyEndToEndInboundGroupSession senderCurve25519Key sessionId)
    sessionData

/-- countEndToEndInboundGroupSessions. -/
def countEndToEndInboundGroupSessions (st : Store) : Nat :=
  (st.map Prod.fst).foldl
    (fun c k => if strStartsWith k KEY_INBOUND_SESSION_PREFIX then c + 1 else c) 0

/-- SessionExtended of base.ts: one record of the Megolm batch. -/
structure SessionExtended where
  senderKey : String
  sessionId : String
  sessionData : JVal
  needsBackup : Bool

/-- Key scan of getEndToEndInboundGroupSessionsBatch: fixed-offset decode
of the composite key (slice(0, 43) and slice(44)), never a split. -/
def igsBatchScan (st : Store) (backupIndex : JVal) :
    List String → List SessionExtended → List SessionExtended
  | [], acc => acc
  | k :: ks, acc =>
    if strStartsWith k KEY_INBOUND_SESSION_PREFIX then
      let key2 := strSliceFrom k KEY_INBOUND_SESSION_PREFIX.length
      let acc2 := acc ++
        [{ senderKey := strSlice key2 0 43,
           sessionId := strSliceFrom key2 44,
           sessionData := (getJsonItem st k).getD .null,
           needsBackup := jsHasKey backupIndex key2 }]
      if SESSION_BATCH_SIZE ≤ acc2.length then acc2
      else igsBatchScan st backupIndex ks acc2
    else igsBatchScan st backupIndex ks acc

/-- getEndToEndInboundGroupSessionsBatch. -/
def getEndToEndInboundGroupSessionsBatch (st : Store) :
    Option (List SessionExtended) × Store :=
  let sessionsNeedingBackup := jsOrElse (getJsonItem st KEY_SESSIONS_NEEDING_BACKUP) (.obj [])
  let result := igsBatchScan st sessionsNeedingBackup (st.map Prod.fst) []
  (if result.length = 0 then none else some result, st)

/-- deleteEndToEndInboundGroupSessionsBatch. -/
def deleteEndToEndInboundGroupSessionsBatch : Store → List (String × String) → Store
  | st, [] => st
  | st, (senderKey, sessionId) :: rest =>
    deleteEndToEndInboundGroupSessionsBatch
      (storRemove st (keyEndToEndInboundGroupSession senderKey sessionId)) rest

/-- getEndToEndRooms: scan under the rooms prefix, keyed by room id. -/
def getEndToEndRooms (st : Store) : List (String × JVal) × Store :=
  ((st.map Prod.fst).foldl
    (fun result k =>
      if strStartsWith k (keyEndToEndRoomsPrefix "") then
        objSet result (strSliceFrom k (keyEndToEndRoomsPrefix "").length)
          ((getJsonItem st k).getD .null)
      else result)
    [], st)

/-- markSessionsNeedingBackup: read-modify-write of the single backup-flag
index record, setting each composite key to true.  The source mutates the
parsed index object in place; the mutation is modelled as an update of the
object's field list. -/
def markSessionsNeedingBackup (st : Store) (sessions : List (String × String)) : Store :=
  let sessionsNeedingBackup := jsOrElse (getJsonItem st KEY_SESSIONS_NEEDING_BACKUP) (.obj [])
  let updated := sessions.foldl
    (fun m s => objSet m (s.1 ++ "/" ++ s.2) (.bool true))
    (jsObjEntries sessionsNeedingBackup)
  setJsonItem st KEY_SESSIONS_NEEDING_BACKUP (.obj updated)

/-- deleteAllData: removes the account record only. -/
def deleteAllData (st : Store) : Store :=
  storRemove st KEY_END_TO_END_ACCOUNT

/-- getAccount. -/
def getAccount (st : Store) : Option JVal × Store :=
  (getJsonItem st KEY_END_TO_END_ACCOUNT, st)

/-- storeAccount. -/
def storeAccount (st : Store) (accountPickle : JVal) : Store :=
  setJsonItem st KEY_END_TO_END_ACCOUNT accountPickle

/-- getCrossSigningKeys. -/
def getCrossSigningKeys (st : Store) : Option JVal × Store :=
  (getJsonItem st KEY_CROSS_SIGNING_KEYS, st)

/-- getSecretStorePrivateKey. -/
def getSecretStorePrivateKey (st : Store) (type : String) : Option JVal × Store :=
  (getJsonItem st (E2E_PREFIX ++ "ssss_cache." ++ type), st)

/-- storeSecretStorePrivateKey. -/
def storeSecretStorePrivateKey (st : Store) (type : String) (key : JVal) : Store :=
  setJsonItem st (E2E_PREFIX ++ "ssss_cache." ++ type) key

/-- The decoded backup-flag index, as both markSessionsNeedingBackup and
the Megolm batch read it. -/
def readBackupIndex (st : Store) : List (String × JVal) :=
  jsObjEntries (jsOrElse (getJsonItem st KEY_SESSIONS_NEEDING_BACKUP) (.obj []))

/-! ## Store and association-list lemmas -/

theorem beq_symm_false {a b : String} (h : (a == b) = false) : (b == a) = false := by
  refine beq_eq_false_iff_ne.mpr fun he => ?_
  exact beq_eq_false_iff_ne.mp h he.symm

theorem lookup_map_value {α β : Type} [BEq α] (k : α) (f : β → β) (l : List (α × β)) :
    List.lookup k (l.map (fun p => (p.1, f p.2))) = (List.lookup k l).map f := by
  induction l with
  | nil => rfl
  | cons p t ih => cases hb : k == p.1 <;> simp [List.lookup, hb, ih]

theorem lookup_none_of_any_false {β : Type} (k : String) (l : List (String × β))
    (h : l.any (fun p => p.1 == k) = false) : List.lookup k l = none := by
  induction l with
  | nil => rfl
  | cons p t ih =>
    rw [List.any_cons, Bool.or_eq_false_iff] at h
    rw [List.lookup, beq_symm_false h.1, ih h.2]

theorem lookup_some_of_any_true {β : Type} (k : String) (l : List (String × β))
    (h : l.any (fun p => p.1 == k) = true) : ∃ w, List.lookup k l = some w := by
  induction l with
  | nil => simp at h
  | cons p t ih =>
    cases hb : p.1 == k with
    | true =>
      have hk : (k == p.1) = true := by
        have : p.1 = k := beq_iff_eq.mp hb
        simp [this]
      exact ⟨p.2, by rw [List.lookup, hk]⟩
    | false =>
      rw [List.any_cons, hb, Bool.false_or] at h
      obtain ⟨w, hw⟩ := ih h
      exact ⟨w, by rw [List.lookup, beq_symm_false hb, hw]⟩

theorem lookup_map_overwrite_self {β : Type} (k : String) (v : β) (l : List (String × β)) :
    List.lookup k (l.map fun p => if p.1 == k then (k, v) else p)
      = (List.lookup k l).map (fun _ => v) := by
  induction l with
  | nil => rfl
  | cons p t ih =>
    cases hb : p.1 == k with
    | true =>
      have hp : p.1 = k := beq_iff_eq.mp hb
      rw [List.map_cons, if_pos hb, List.lookup, List.lookup, beq_self_eq_true,
        show (k == p.1) = true by simp [hp]]
      rfl
    | false =>
      have hk : (k == p.1) = false := beq_symm_false hb
      rw [List.map_cons, if_neg (by simp [hb]), List.lookup, List.lookup, hk]
      exact ih

theorem lookup_map_overwrite_ne {β : Type} (k k' : String) (v : β)
    (l : List (String × β)) (h : ¬ k' = k) :
    List.lookup k' (l.map fun p => if p.1 == k then (k, v) else p)
      = List.lookup k' l := by
  induction l with
  | nil => rfl
  | cons p t ih =>
    cases hb : p.1 == k with
    | true =>
      have hp : p.1 = k := beq_iff_eq.mp hb
      have h1 : (k' == k) = false := beq_eq_false_iff_ne.mpr h
      rw [List.map_cons, if_pos hb, List.lookup, List.lookup, h1,
        show (k' == p.1) = false by rw [hp]; exact h1, ih]
    | false =>
      rw [List.map_cons, if_neg (by simp [hb]), List.lookup, List.lookup, ih]

theorem storGet_set_self (st : Store) (k : String) (v : RawVal) :
    storGet (storSet st k v) k = some v := by
  unfold storGet storSet
  split
  · rename_i h
    rw [lookup_map_overwrite_self]
    obtain ⟨w, hw⟩ := lookup_some_of_any_true k st h
    rw [hw]; rfl
  · rename_i h
    rw [List.lookup_append,
      lookup_none_of_any_false k st (Bool.eq_false_iff.mpr h)]
    simp [List.lookup]

theorem storGet_set_ne (st : Store) (k k' : String) (v : RawVal) (h : ¬ k' = k) :
    storGet (storSet st k v) k' = storGet st k' := by
  unfold storGet storSet
  split
  · exact lookup_map_overwrite_ne k k' v st h
  · rw [List.lookup_append]
    cases hl : List.lookup k' st with
    | some w => rfl
    | none =>
      have h1 : (k' == k) = false := beq_eq_false_iff_ne.mpr h
      simp [List.lookup, h1]

theorem lookup_filter_out_self {β : Type} (k : String) (l : List (String × β)) :
    List.lookup k (l.filter fun p => !(p.1 == k)) = none := by
  induction l with
  | nil => rfl
  | cons p t ih =>
    cases hb : p.1 == k with
    | true => simpa [List.filter, hb] using ih
    | false =>
      rw [List.filter, hb]
      show List.lookup k (p :: List.filter _ t) = none
      rw [List.lookup, beq_symm_false hb, ih]

theorem lookup_filter_out_ne {β : Type} (k k' : String) (l : List (String × β))
    (h : ¬ k' = k) :
    List.lookup k' (l.filter fun p => !(p.1 == k)) = List.lookup k' l := by
  induction l with
  | nil => rfl
  | cons p t ih =>
    cases hb : p.1 == k with
    | true =>
      have hp : p.1 = k := beq_iff_eq.mp hb
      have h1 : (k' == p.1) = false := by
        rw [hp]; exact beq_eq_false_iff_ne.mpr h
      rw [List.filter, hb]
      show List.lookup k' (List.filter _ t) = _
      rw [List.lookup, h1, ih]
    | false =>
      rw [List.filter, hb]
      show List.lookup k' (p :: List.filter _ t) = _
      rw [List.lookup, List.lookup, ih]

theorem storGet_remove_self (st : Store) (k : String) :
    storGet (storRemove st k) k = none := by
  unfold storGet storRemove
  exact lookup_filter_out_self k st

theorem storGet_remove_ne (st : Store) (k k' : String) (h : ¬ k' = k) :
    storGet (storRemove st k) k' = storGet st k' := by
  unfold storGet storRemove
  exact lookup_filter_out_ne k k' st h

theorem storRemove_of_absent (st : Store) (k : String) (h : storGet st k = none) :
    storRemove st k = st := by
  unfold storGet at h
  unfold storRemove
  induction st with
  | nil => rfl
  | cons p t ih =>
    cases hk : k == p.1 with
    | true => rw [List.lookup, hk] at h; exact absurd h (by simp)
    | false =>
      rw [List.lookup, hk] at h
      rw [List.filter, beq_symm_false hk]
      show p :: List.filter _ t = p :: t
      rw [ih h]

theorem getJsonItem_set_self (st : Store) (k : String) (v : JVal) :
    getJsonItem (setJsonItem st k v) k = some v := by
  unfold getJsonItem setJsonItem
  rw [storGet_set_self]

theorem getJsonItem_set_ne (st : Store) (k k' : String) (v : JVal) (h : ¬ k' = k) :
    getJsonItem (setJsonItem st k v) k' = getJsonItem st k' := by
  unfold getJsonItem setJsonItem
  rw [storGet_set_ne st k k' _ h]

theorem getJsonItem_remove_ne (st : Store) (k k' : String) (h : ¬ k' = k) :
    getJsonItem (storRemove st k) k' = getJsonItem st k' := by
  unfold getJsonItem
  rw [storGet_remove_ne st k k' h]

/-! ## String lemmas -/

theorem strStartsWith_of_data (s p : String) (t : List Char) (h : s.data = p.data ++ t) :
    strStartsWith s p = true := by
  unfold strStartsWith
  rw [h, List.isPrefixOf_iff_prefix]
  exact List.prefix_append _ _

theorem string_eq_of_data {a b : String} (h : a.data = b.data) : a = b := by
  cases a with
  | mk da => cases b with
    | mk db => exact congrArg String.mk h

theorem keySessions_data (dk : String) :
    (keyEndToEndSessions dk).data = (keyEndToEndSessions "").data ++ dk.data := by
  show (E2E_PREFIX.data ++ ("sessions/").data) ++ dk.data
      = ((E2E_PREFIX.data ++ ("sessions/").data) ++ ([] : List Char)) ++ dk.data
  simp

theorem keySessions_inj {a b : String}
    (h : keyEndToEndSessions a = keyEndToEndSessions b) : a = b := by
  have hd := congrArg String.data h
  rw [keySessions_data a, keySessions_data b] at hd
  exact string_eq_of_data (List.append_cancel_left hd)

theorem keyIGS_data (K S : String) :
    (keyEndToEndInboundGroupSession K S).data
      = KEY_INBOUND_SESSION_PREFIX.data ++ (K.data ++ '/' :: S.data) := by
  show ((KEY_INBOUND_SESSION_PREFIX.data ++ K.data) ++ ('/' :: [])) ++ S.data
      = KEY_INBOUND_SESSION_PREFIX.data ++ (K.data ++ '/' :: S.data)
  simp

theorem snb_neq_igsKey (K S : String) :
    (KEY_SESSIONS_NEEDING_BACKUP == keyEndToEndInboundGroupSession K S) = false := by
  refine beq_eq_false_iff_ne.mpr fun h => ?_
  have h7 : KEY_SESSIONS_NEEDING_BACKUP.data.get? 7
      = (keyEndToEndInboundGroupSession K S).data.get? 7 := by rw [h]
  have h8 : (some 's' : Option Char) = some 'i' := h7
  simp at h8

/-! ## C1: inbound-group-session composite key round trip -/

theorem igsKey_startsWith (K S : String) :
    strStartsWith (keyEndToEndInboundGroupSession K S) KEY_INBOUND_SESSION_PREFIX = true :=
  strStartsWith_of_data _ _ _ (keyIGS_data K S)

theorem igsKey_key2 (K S : String) :
    strSliceFrom (keyEndToEndInboundGroupSession K S) KEY_INBOUND_SESSION_PREFIX.length
      = String.mk (K.data ++ '/' :: S.data) := by
  unfold strSliceFrom
  rw [keyIGS_data]
  have hl : KEY_INBOUND_SESSION_PREFIX.length = KEY_INBOUND_SESSION_PREFIX.data.length := rfl
  rw [hl, List.drop_left]

theorem igs_senderKey (K S : String) (hK : K.length = 43) :
    strSlice (String.mk (K.data ++ '/' :: S.data)) 0 43 = K := by
  unfold strSlice
  have hK' : K.data.length = 43 := hK
  show String.mk (((K.data ++ '/' :: S.data).take 43).drop 0) = K
  rw [← hK', List.take_left, List.drop_zero]

theorem igs_sessionId (K S : String) (hK : K.length = 43) :
    strSliceFrom (String.mk (K.data ++ '/' :: S.data)) 44 = S := by
  unfold strSliceFrom
  have hK' : K.data.length = 43 := hK
  have h44 : (44 : Nat) = K.data.length + 1 := by rw [hK']
  show String.mk ((K.data ++ '/' :: S.data).drop 44) = S
  rw [h44, List.drop_append 1]
  rfl

/-- C1: for every 43-character sender key K and every session id S (session
ids containing the separator included), storing an inbound group session
under (K, S) and decoding its key in getEndToEndInboundGroupSessionsBatch
recovers senderKey = K and sessionId = S: the fixed-offset decode (slice at
43 and 44) inverts the key encoder exactly. -/
theorem inboundGroupSessionKeyRoundTrip (K S : String) (d : JVal) (hK : K.length = 43) :
    strSlice (strSliceFrom (keyEndToEndInboundGroupSession K S)
        KEY_INBOUND_SESSION_PREFIX.length) 0 43 = K ∧
    strSliceFrom (strSliceFrom (keyEndToEndInboundGroupSession K S)
        KEY_INBOUND_SESSION_PREFIX.length) 44 = S ∧
    (getEndToEndInboundGroupSessionsBatch
        (storeEndToEndInboundGroupSession [] K S d)).1 =
      some [{ senderKey := K, sessionId := S, sessionData := d,
              needsBackup := false }] := by
  have hkey2 := igsKey_key2 K S
  refine ⟨by rw [hkey2]; exact igs_senderKey K S hK,
          by rw [hkey2]; exact igs_sessionId K S hK, ?_⟩
  have hstore : storeEndToEndInboundGroupSession [] K S d
      = [(keyEndToEndInboundGroupSession K S, RawVal.valid d)] := rfl
  rw [hstore]
  have hsnb : getJsonItem [(keyEndToEndInboundGroupSession K S, RawVal.valid d)]
      KEY_SESSIONS_NEEDING_BACKUP = none := by
    unfold getJsonItem storGet
    rw [List.lookup, snb_neq_igsKey]
    rfl
  have hown : getJsonItem [(keyEndToEndInboundGroupSession K S, RawVal.valid d)]
      (keyEndToEndInboundGroupSession K S) = some d := by
    unfold getJsonItem storGet
    rw [List.lookup, beq_self_eq_true]
  unfold getEndToEndInboundGroupSessionsBatch
  rw [hsnb]
  show (if (igsBatchScan _ (jsOrElse none (.obj []))
      [keyEndToEndInboundGroupSession K S] []).length = 0 then none
    else some (igsBatchScan _ (jsOrElse none (.obj []))
      [keyEndToEndInboundGroupSession K S] [])) = _
  rw [show igsBatchScan [(keyEndToEndInboundGroupSession K S, RawVal.valid d)]
      (jsOrElse none (.obj [])) [keyEndToEndInboundGroupSession K S] []
      = [{ senderKey := K, sessionId := S, sessionData := d, needsBackup := false }] from ?_]
  · rfl
  · have hlen : ∀ r : SessionExtended, ¬ (SESSION_BATCH_SIZE ≤ [r].length) := by
      intro r; simp [SESSION_BATCH_SIZE]
    unfold igsBatchScan
    rw [igsKey_startsWith]
    simp only [if_true, List.nil_append]
    rw [hkey2, igs_senderKey K S hK, igs_sessionId K S hK, hown]
    rw [if_neg (hlen _)]
    rfl

/-- Witness for C1 at a concrete 43-character sender key and a session id
containing the separator. -/
theorem inboundGroupSessionKeyRoundTrip_witness :
    ("ABCDEFGHIJKLMNOPQRSTUVWXYZabcdefghijklmnopq" : String).length = 43 ∧
    (getEndToEndInboundGroupSessionsBatch
        (storeEndToEndInboundGroupSession []
          "ABCDEFGHIJKLMNOPQRSTUVWXYZabcdefghijklmnopq" "abc/def" (.str "data"))).1 =
      some [{ senderKey := "ABCDEFGHIJKLMNOPQRSTUVWXYZabcdefghijklmnopq",
              sessionId := "abc/def", sessionData := .str "data",
              needsBackup := false }] :=
  ⟨rfl, (inboundGroupSessionKeyRoundTrip
    "ABCDEFGHIJKLMNOPQRSTUVWXYZabcdefghijklmnopq" "abc/def" (.str "data") rfl).2.2⟩

/-- C3: getEndToEndSessionsBatch derives the device key with
key.split("/")[1], truncating device keys that contain the separator, so on
a store holding one session for device key "ab/cd" the batch returns null
although countEndToEndSessions still reports one remaining session —
contradicting the null-iff-zero-sessions contract. -/
theorem olmSessionBatchNullDespiteRemainingSession :
    (getEndToEndSessionsBatch
        [("crypto.sessions/ab/cd", RawVal.valid (.obj [("s1", .str "p")]))]).1 = none ∧
    (countEndToEndSessions
        [("crypto.sessions/ab/cd", RawVal.valid (.obj [("s1", .str "p")]))]).1 = 1 :=
  ⟨rfl, rfl⟩

/-- C6: getMigrationState on a store whose migration-state key is absent,
or whose stored value fails to decode, returns the NOT_STARTED value. -/
theorem getMigrationStateDefaultsToNotStarted (st : Store)
    (h : storGet st KEY_END_TO_END_MIGRATION_STATE = none ∨
         storGet st KEY_END_TO_END_MIGRATION_STATE = some RawVal.corrupt) :
    getMigrationState st = MigrationState.NOT_STARTED := by
  unfold getMigrationState getJsonItem
  rcases h with h | h <;> rw [h] <;> rfl

/-- Witness for C6 on the empty store. -/
theorem getMigrationStateDefaultsToNotStarted_witness :
    getMigrationState [] = MigrationState.NOT_STARTED :=
  getMigrationStateDefaultsToNotStarted [] (Or.inl rfl)

/-- C7: deleteAllData removes exactly the account record and leaves every
other key unchanged. -/
theorem deleteAllDataRemovesOnlyAccount (st : Store) (k : String)
    (h : ¬ k = KEY_END_TO_END_ACCOUNT) :
    storGet (deleteAllData st) KEY_END_TO_END_ACCOUNT = none ∧
    storGet (deleteAllData st) k = storGet st k := by
  unfold deleteAllData
  exact ⟨storGet_remove_self st _, storGet_remove_ne st _ k h⟩

/-- Witness for C7 on a store holding the account and the migration state. -/
theorem deleteAllDataRemovesOnlyAccount_witness :
    storGet (deleteAllData [(KEY_END_TO_END_ACCOUNT, RawVal.valid (.str "a")),
        (KEY_END_TO_END_MIGRATION_STATE, RawVal.valid (.num 1))])
      KEY_END_TO_END_ACCOUNT = none ∧
    storGet (deleteAllData [(KEY_END_TO_END_ACCOUNT, RawVal.valid (.str "a")),
        (KEY_END_TO_END_MIGRATION_STATE, RawVal.valid (.num 1))])
      KEY_END_TO_END_MIGRATION_STATE =
    storGet [(KEY_END_TO_END_ACCOUNT, RawVal.valid (.str "a")),
        (KEY_END_TO_END_MIGRATION_STATE, RawVal.valid (.num 1))]
      KEY_END_TO_END_MIGRATION_STATE :=
  deleteAllDataRemovesOnlyAccount _ _ (by decide)

/-- C9: a key whose stored text is not valid JSON decodes to null, exactly
as if the key were absent, so every read built on getJsonItem degrades to
its null/empty default for that record instead of propagating a fault. -/
theorem corruptJsonTreatedAsAbsent (st : Store) (k : String)
    (h : storGet st k = none ∨ storGet st k = some RawVal.corrupt) :
    getJsonItem st k = none ∧
    getJsonItem st k = getJsonItem (storRemove st k) k := by
  have h1 : getJsonItem st k = none := by
    unfold getJsonItem
    rcases h with h | h
    · rw [h]
    · rw [h]
  have h2 : getJsonItem (storRemove st k) k = none := by
    unfold getJsonItem; rw [storGet_remove_self]
  exact ⟨h1, h1.trans h2.symm⟩

/-- Witness for C9 on a store with a corrupt account record. -/
theorem corruptJsonTreatedAsAbsent_witness :
    getJsonItem [(KEY_END_TO_END_ACCOUNT, RawVal.corrupt)] KEY_END_TO_END_ACCOUNT = none ∧
    getJsonItem [(KEY_END_TO_END_ACCOUNT, RawVal.corrupt)] KEY_END_TO_END_ACCOUNT
      = getJsonItem (storRemove [(KEY_END_TO_END_ACCOUNT, RawVal.corrupt)]
          KEY_END_TO_END_ACCOUNT) KEY_END_TO_END_ACCOUNT :=
  corruptJsonTreatedAsAbsent _ _ (Or.inr rfl)

/-! ## Session fix-up lemmas -/

theorem fixSession_ne_str (w : JVal) (t : String) : fixSession w ≠ .str t := by
  cases w <;> simp [fixSession]

theorem fixSession_idem (v : JVal) : fixSession (fixSession v) = fixSession v := by
  cases v <;> rfl

theorem getSessions_of_obj (st : Store) (dk : String) (fields : List (String × JVal))
    (hst : storGet st (keyEndToEndSessions dk) = some (RawVal.valid (.obj fields))) :
    _getEndToEndSessions st dk = fields.map (fun p => (p.1, fixSession p.2)) := by
  unfold _getEndToEndSessions getJsonItem
  rw [hst]
  rfl

theorem getSessions_set_obj (st : Store) (dk : String) (l : List (String × JVal)) :
    _getEndToEndSessions (setJsonItem st (keyEndToEndSessions dk) (.obj l)) dk
      = l.map (fun p => (p.1, fixSession p.2)) := by
  unfold _getEndToEndSessions
  rw [getJsonItem_set_self]
  rfl

theorem getSessions_remove_self (st : Store) (dk : String) :
    _getEndToEndSessions (storRemove st (keyEndToEndSessions dk)) dk = [] := by
  unfold _getEndToEndSessions getJsonItem
  rw [storGet_remove_self]
  rfl

theorem getSessions_map_fix (st : Store) (dk : String) :
    (_getEndToEndSessions st dk).map (fun p => (p.1, fixSession p.2))
      = _getEndToEndSessions st dk := by
  unfold _getEndToEndSessions
  rw [List.map_map]
  refine List.map_congr_left fun p hp => ?_
  show (p.1, fixSession (fixSession p.2)) = (p.1, fixSession p.2)
  rw [fixSession_idem]

theorem mem_getSessions_values {st : Store} {dk : String} {v : JVal}
    (h : v ∈ (_getEndToEndSessions st dk).map Prod.snd) :
    ∃ w, v = fixSession w := by
  unfold _getEndToEndSessions at h
  rw [List.map_map, List.mem_map] at h
  obtain ⟨p, hp, hv⟩ := h
  exact ⟨p.2, hv.symm⟩

theorem pushSessionsUpTo_mem {vs acc : List JVal} {v : JVal}
    (h : v ∈ (pushSessionsUpTo acc vs).1) : v ∈ acc ∨ v ∈ vs := by
  induction vs generalizing acc with
  | nil => exact Or.inl (by simpa [pushSessionsUpTo] using h)
  | cons w ws ih =>
    rw [pushSessionsUpTo] at h
    by_cases hc : SESSION_BATCH_SIZE ≤ (acc ++ [w]).length
    · rw [if_pos hc] at h
      rcases List.mem_append.mp h with h0 | h0
      · exact Or.inl h0
      · simp only [List.mem_singleton] at h0
        exact Or.inr (h0 ▸ List.mem_cons_self w ws)
    · rw [if_neg hc] at h
      rcases ih h with h0 | h0
      · rcases List.mem_append.mp h0 with h1 | h1
        · exact Or.inl h1
        · simp only [List.mem_singleton] at h1
          exact Or.inr (h1 ▸ List.mem_cons_self w ws)
      · exact Or.inr (List.mem_cons_of_mem w h0)

theorem olmBatchScan_mem {st : Store} {ks : List String} {acc : List JVal} {v : JVal}
    (h : v ∈ olmBatchScan st ks acc) :
    v ∈ acc ∨ ∃ dk, v ∈ (_getEndToEndSessions st dk).map Prod.snd := by
  induction ks generalizing acc with
  | nil => exact Or.inl (by simpa [olmBatchScan] using h)
  | cons k ks ih =>
    rw [olmBatchScan] at h
    by_cases hs : strStartsWith k (keyEndToEndSessions "") = true
    · rw [if_pos hs] at h
      dsimp only at h
      rcases hp : pushSessionsUpTo acc
          ((_getEndToEndSessions st ((jsSplit k '/').getD 1 "")).map Prod.snd) with
        ⟨acc2, stopped⟩
      rw [hp] at h
      have hmem2 : ∀ u, u ∈ acc2 →
          u ∈ acc ∨ ∃ dk, u ∈ (_getEndToEndSessions st dk).map Prod.snd := by
        intro u hu
        have : u ∈ (pushSessionsUpTo acc
            ((_getEndToEndSessions st ((jsSplit k '/').getD 1 "")).map Prod.snd)).1 := by
          rw [hp]; exact hu
        rcases pushSessionsUpTo_mem this with h1 | h1
        · exact Or.inl h1
        · exact Or.inr ⟨_, h1⟩
      cases stopped with
      | true => exact hmem2 v h
      | false =>
        rcases ih h with h1 | h1
        · exact hmem2 v h1
        · exact Or.inr h1
    · rw [if_neg hs] at h
      exact ih h

/-- C2: when the stored per-device mapping holds a legacy entry whose value
is a bare string s, every read (get one session, get all sessions, count,
batch) sees it normalized to an object with a session field, and none of
these reads modifies the store: the raw legacy representation survives the
read.  Batch results in particular never contain a bare-string session. -/
theorem legacyBareStringSessionNormalizedOnRead (st : Store) (dk sid s : String)
    (fields : List (String × JVal))
    (hst : storGet st (keyEndToEndSessions dk) = some (RawVal.valid (.obj fields)))
    (hsid : List.lookup sid fields = some (.str s)) :
    (getEndToEndSession st dk sid).1 = .obj [("session", .str s)] ∧
    (getEndToEndSession st dk sid).2 = st ∧
    List.lookup sid (getEndToEndSessions st dk).1 = some (.obj [("session", .str s)]) ∧
    (getEndToEndSessions st dk).2 = st ∧
    (countEndToEndSessions st).2 = st ∧
    (getEndToEndSessionsBatch st).2 = st ∧
    (∀ l, (getEndToEndSessionsBatch st).1 = some l → ∀ v ∈ l, ∀ t, v ≠ JVal.str t) := by
  have hlook : List.lookup sid (_getEndToEndSessions st dk)
      = some (.obj [("session", .str s)]) := by
    rw [getSessions_of_obj st dk fields hst, lookup_map_value, hsid]
    rfl
  refine ⟨?_, rfl, ?_, rfl, rfl, rfl, ?_⟩
  · unfold getEndToEndSession
    rw [hlook]
    rfl
  · unfold getEndToEndSessions
    exact hlook
  · intro l hl v hv t
    have hvmem : v ∈ olmBatchScan st (st.map Prod.fst) [] := by
      unfold getEndToEndSessionsBatch at hl
      dsimp only at hl
      by_cases hz : (olmBatchScan st (st.map Prod.fst) []).length = 0
      · rw [if_pos hz] at hl
        exact absurd hl (by simp)
      · rw [if_neg hz] at hl
        cases hl
        exact hv
    rcases olmBatchScan_mem hvmem with h0 | ⟨dk2, hm⟩
    · simp at h0
    · obtain ⟨w, hw⟩ := mem_getSessions_values hm
      rw [hw]
      exact fixSession_ne_str w t

/-- Witness for C2 on a store holding one legacy bare-string session. -/
theorem legacyBareStringSessionNormalizedOnRead_witness :
    (getEndToEndSession [(keyEndToEndSessions "D", RawVal.valid (.obj [("s1", .str "p")]))]
        "D" "s1").1 = .obj [("session", .str "p")] ∧
    (getEndToEndSession [(keyEndToEndSessions "D", RawVal.valid (.obj [("s1", .str "p")]))]
        "D" "s1").2 = [(keyEndToEndSessions "D", RawVal.valid (.obj [("s1", .str "p")]))] ∧
    List.lookup "s1" (getEndToEndSessions
        [(keyEndToEndSessions "D", RawVal.valid (.obj [("s1", .str "p")]))] "D").1
      = some (.obj [("session", .str "p")]) ∧
    (getEndToEndSessions [(keyEndToEndSessions "D", RawVal.valid (.obj [("s1", .str "p")]))]
        "D").2 = [(keyEndToEndSessions "D", RawVal.valid (.obj [("s1", .str "p")]))] ∧
    (countEndToEndSessions [(keyEndToEndSessions "D",
        RawVal.valid (.obj [("s1", .str "p")]))]).2
      = [(keyEndToEndSessions "D", RawVal.valid (.obj [("s1", .str "p")]))] ∧
    (getEndToEndSessionsBatch [(keyEndToEndSessions "D",
        RawVal.valid (.obj [("s1", .str "p")]))]).2
      = [(keyEndToEndSessions "D", RawVal.valid (.obj [("s1", .str "p")]))] ∧
    (∀ l, (getEndToEndSessionsBatch [(keyEndToEndSessions "D",
        RawVal.valid (.obj [("s1", .str "p")]))]).1 = some l →
      ∀ v ∈ l, ∀ t, v ≠ JVal.str t) :=
  legacyBareStringSessionNormalizedOnRead _ "D" "s1" "p" [("s1", .str "p")] rfl rfl

/-! ## objSet lemmas -/

theorem lookup_objSet_self (l : List (String × JVal)) (k : String) (v : JVal) :
    List.lookup k (objSet l k v) = some v := by
  unfold objSet
  split
  · rename_i h
    rw [lookup_map_overwrite_self]
    obtain ⟨w, hw⟩ := lookup_some_of_any_true k l h
    rw [hw]
    rfl
  · rename_i h
    rw [List.lookup_append,
      lookup_none_of_any_false k l (Bool.eq_false_iff.mpr h)]
    simp [List.lookup]

theorem lookup_objSet_ne (l : List (String × JVal)) (k k' : String) (v : JVal)
    (h : ¬ k' = k) :
    List.lookup k' (objSet l k v) = List.lookup k' l := by
  unfold objSet
  split
  · exact lookup_map_overwrite_ne k k' v l h
  · rw [List.lookup_append]
    cases hl : List.lookup k' l with
    | some w => rfl
    | none =>
      have h1 : (k' == k) = false := beq_eq_false_iff_ne.mpr h
      simp [List.lookup, h1]

/-- C10: storeEndToEndSession writes back the whole normalized per-device
mapping: the stored value after the write is the fixed-up mapping with the
new session inserted, so any other session stored in the legacy bare-string
form becomes durably persisted in its upgraded object form. -/
theorem storeSessionPersistsNormalizedMapping (st : Store) (dk sid sid2 s : String)
    (info : JVal) (fields : List (String × JVal))
    (hst : storGet st (keyEndToEndSessions dk) = some (RawVal.valid (.obj fields)))
    (hleg : List.lookup sid2 fields = some (.str s))
    (hne : ¬ sid2 = sid) :
    storGet (storeEndToEndSession st dk sid info) (keyEndToEndSessions dk)
      = some (RawVal.valid (.obj
          (objSet (fields.map (fun p => (p.1, fixSession p.2))) sid info))) ∧
    List.lookup sid2 (objSet (fields.map (fun p => (p.1, fixSession p.2))) sid info)
      = some (.obj [("session", .str s)]) := by
  constructor
  · unfold storeEndToEndSession setJsonItem
    rw [getSessions_of_obj st dk fields hst]
    exact storGet_set_self st _ _
  · rw [lookup_objSet_ne _ _ _ _ hne, lookup_map_value, hleg]
    rfl

/-- Witness for C10: storing a new session next to a legacy bare-string
session persists the legacy one in normalized form. -/
theorem storeSessionPersistsNormalizedMapping_witness :
    storGet (storeEndToEndSession
        [(keyEndToEndSessions "D", RawVal.valid (.obj [("s1", .str "p")]))]
        "D" "s2" (.obj [("session", .str "q")])) (keyEndToEndSessions "D")
      = some (RawVal.valid (.obj
          (objSet ([("s1", JVal.str "p")].map (fun p => (p.1, fixSession p.2)))
            "s2" (.obj [("session", .str "q")])))) ∧
    List.lookup "s1" (objSet ([("s1", JVal.str "p")].map (fun p => (p.1, fixSession p.2)))
        "s2" (.obj [("session", .str "q")]))
      = some (.obj [("session", .str "p")]) :=
  storeSessionPersistsNormalizedMapping _ "D" "s2" "s1" "p" _ _ rfl rfl (by decide)

/-! ## Deletion lemmas -/

theorem lookup_none_forall {β : Type} {k : String} {l : List (String × β)}
    (h : List.lookup k l = none) : ∀ p ∈ l, (p.1 == k) = false := by
  induction l with
  | nil => intro p hp; cases hp
  | cons q t ih =>
    intro p hp
    cases hk : k == q.1 with
    | true => rw [List.lookup, hk] at h; exact absurd h (by simp)
    | false =>
      rw [List.lookup, hk] at h
      rcases List.mem_cons.mp hp with rfl | hpt
      · exact beq_symm_false hk
      · exact ih h p hpt

theorem objDelete_of_absent (l : List (String × JVal)) (sid : String)
    (h : List.lookup sid l = none) : objDelete l sid = l := by
  unfold objDelete
  exact List.filter_eq_self.mpr fun p hp => by rw [lookup_none_forall h p hp]; rfl

theorem deleteBatch_single (st : Store) (dk sid : String) :
    deleteEndToEndSessionsBatch st [(dk, sid)]
      = if (objDelete (_getEndToEndSessions st dk) sid).length = 0
        then storRemove st (keyEndToEndSessions dk)
        else setJsonItem st (keyEndToEndSessions dk)
          (.obj (objDelete (_getEndToEndSessions st dk) sid)) := by
  simp only [deleteEndToEndSessionsBatch]

/-- C5 counterexample: batch-deleting a session id that does not exist for
a device that stores a legacy bare-string session rewrites the device's
record (the read-time normalization becomes persisted), so the store's
contents do not stay unchanged. -/
theorem deleteNonexistentSessionRewritesStore :
    deleteEndToEndSessionsBatch
        [(keyEndToEndSessions "D", RawVal.valid (.obj [("s1", .str "p")]))]
        [("D", "zzz")]
      ≠ [(keyEndToEndSessions "D", RawVal.valid (.obj [("s1", .str "p")]))] := by
  intro h
  have h2 : ([(keyEndToEndSessions "D",
        RawVal.valid (.obj [("s1", .obj [("session", .str "p")])]))] : Store)
      = [(keyEndToEndSessions "D", RawVal.valid (.obj [("s1", .str "p")]))] := h
  simp at h2

/-- C5 amended: batch-deleting a (deviceKey, sessionId) pair whose session
id is absent reports no error and deletes nothing: every device's decoded
session mapping is unchanged, and when the device's key is absent the store
itself is bit-for-bit unchanged (when the key is present, its raw value may
be rewritten in read-normalized form, as the counterexample forces). -/
theorem deleteNonexistentSessionLogicalNoOp (st : Store) (dk sid dk2 : String)
    (h : List.lookup sid (_getEndToEndSessions st dk) = none) :
    _getEndToEndSessions (deleteEndToEndSessionsBatch st [(dk, sid)]) dk2
      = _getEndToEndSessions st dk2 ∧
    (storGet st (keyEndToEndSessions dk) = none →
      deleteEndToEndSessionsBatch st [(dk, sid)] = st) := by
  have hdel : objDelete (_getEndToEndSessions st dk) sid = _getEndToEndSessions st dk :=
    objDelete_of_absent _ _ h
  have hstep := deleteBatch_single st dk sid
  rw [hdel] at hstep
  by_cases hz : (_getEndToEndSessions st dk).length = 0
  · rw [if_pos hz] at hstep
    have hnil : _getEndToEndSessions st dk = [] := List.length_eq_zero.mp hz
    constructor
    · rw [hstep]
      by_cases hdk : dk2 = dk
      · subst hdk
        rw [getSessions_remove_self]
        exact hnil.symm
      · unfold _getEndToEndSessions
        rw [getJsonItem_remove_ne st _ _ (fun he => hdk (keySessions_inj he))]
    · intro habs
      rw [hstep, storRemove_of_absent st _ habs]
  · rw [if_neg hz] at hstep
    constructor
    · rw [hstep]
      by_cases hdk : dk2 = dk
      · subst hdk
        rw [getSessions_set_obj, getSessions_map_fix]
      · unfold _getEndToEndSessions
        rw [getJsonItem_set_ne st _ _ _ (fun he => hdk (keySessions_inj he))]
    · intro habs
      exfalso
      apply hz
      unfold _getEndToEndSessions getJsonItem
      rw [habs]
      rfl

/-- Witness for the amended C5 on the empty store. -/
theorem deleteNonexistentSessionLogicalNoOp_witness :
    _getEndToEndSessions (deleteEndToEndSessionsBatch [] [("D", "z")]) "E"
      = _getEndToEndSessions [] "E" ∧
    deleteEndToEndSessionsBatch [] [("D", "z")] = [] :=
  ⟨(deleteNonexistentSessionLogicalNoOp [] "D" "z" "E" rfl).1,
   (deleteNonexistentSessionLogicalNoOp [] "D" "z" "E" rfl).2 rfl⟩

/-! ## Backup-flag index lemmas -/

theorem keys_map_overwrite (l : List (String × JVal)) (k : String) (v : JVal) :
    (l.map fun p => if p.1 == k then (k, v) else p).map Prod.fst = l.map Prod.fst := by
  rw [List.map_map]
  refine List.map_congr_left fun p hp => ?_
  show (if p.1 == k then (k, v) else p).1 = p.1
  cases hb : p.1 == k with
  | true => rw [if_pos rfl]; exact (beq_iff_eq.mp hb).symm
  | false => rw [if_neg (by simp [hb])]

theorem nodup_keys_objSet (l : List (String × JVal)) (k : String) (v : JVal)
    (hnd : (l.map Prod.fst).Nodup) : ((objSet l k v).map Prod.fst).Nodup := by
  unfold objSet
  split
  · rw [keys_map_overwrite]; exact hnd
  · rename_i h
    rw [List.map_append]
    rw [List.nodup_append]
    refine ⟨hnd, List.nodup_singleton k, ?_⟩
    intro a ha hb
    simp only [List.map_cons, List.map_nil, List.mem_singleton] at hb
    apply h
    rw [List.mem_map] at ha
    obtain ⟨p, hp, hpk⟩ := ha
    exact List.any_eq_true.mpr ⟨p, hp, beq_iff_eq.mpr (hpk.trans hb)⟩

theorem countP_objSet_self (l : List (String × JVal)) (k : String) (v : JVal)
    (hnd : (l.map Prod.fst).Nodup) :
    (objSet l k v).countP (fun p => p.1 == k) = 1 := by
  unfold objSet
  split
  · rename_i h
    rw [List.countP_map]
    have hcong : l.countP
        ((fun p : String × JVal => p.1 == k) ∘ (fun p => if p.1 == k then (k, v) else p))
        = l.countP (fun p => p.1 == k) := by
      refine List.countP_congr fun p hp => ?_
      have heq : ((fun p : String × JVal => p.1 == k)
          ∘ (fun p => if p.1 == k then (k, v) else p)) p = (p.1 == k) := by
        show ((if p.1 == k then (k, v) else p).1 == k) = (p.1 == k)
        cases hb : p.1 == k with
        | true => rw [if_pos rfl]; simp
        | false => rw [if_neg (by simp [hb]), hb]
      rw [heq]
    rw [hcong]
    have hk : k ∈ l.map Prod.fst := by
      obtain ⟨p, hp, hpk⟩ := List.any_eq_true.mp h
      exact List.mem_map.mpr ⟨p, hp, beq_iff_eq.mp hpk⟩
    have hms : l.countP (fun p => p.1 == k) = (l.map Prod.fst).countP (fun x => x == k) := by
      rw [List.countP_map]
      rfl
    rw [hms]
    exact List.count_eq_one_of_mem hnd hk
  · rename_i h
    have hz : l.countP (fun p => p.1 == k) = 0 := by
      rw [List.countP_eq_zero]
      intro p hp hc
      exact h (List.any_eq_true.mpr ⟨p, hp, hc⟩)
    rw [List.countP_append, hz]
    simp [List.countP_cons]

theorem readBackupIndex_after_mark (st : Store) (ss : List (String × String)) :
    readBackupIndex (markSessionsNeedingBackup st ss)
      = ss.foldl (fun m s => objSet m (s.1 ++ "/" ++ s.2) (.bool true))
          (readBackupIndex st) := by
  unfold markSessionsNeedingBackup readBackupIndex
  rw [getJsonItem_set_self]
  rfl

/-- C8: markSessionsNeedingBackup is idempotent and monotone: marking the
same (senderKey, sessionId) twice, within one call or across two calls,
leaves the backup-flag index with exactly one entry for its composite key,
set to true; and no mark call removes an existing flag entry or changes it
to anything but true (the monotonicity conjunct quantifies over every
existing entry of the pre-state index).  The only hypothesis restricts the
stored index to its reachable shapes: absent, corrupt, or a parsed JSON
object (whose keys are duplicate-free). -/
theorem markSessionsNeedingBackupIdempotentMonotone (st : Store) (K S : String)
    (hidx : storGet st KEY_SESSIONS_NEEDING_BACKUP = none ∨
            storGet st KEY_SESSIONS_NEEDING_BACKUP = some RawVal.corrupt ∨
            ∃ fl, storGet st KEY_SESSIONS_NEEDING_BACKUP = some (RawVal.valid (.obj fl)) ∧
              (fl.map Prod.fst).Nodup) :
    (readBackupIndex (markSessionsNeedingBackup (markSessionsNeedingBackup st [(K, S)])
        [(K, S)])).countP (fun p => p.1 == K ++ "/" ++ S) = 1 ∧
    List.lookup (K ++ "/" ++ S) (readBackupIndex (markSessionsNeedingBackup
        (markSessionsNeedingBackup st [(K, S)]) [(K, S)])) = some (.bool true) ∧
    (readBackupIndex (markSessionsNeedingBackup st [(K, S), (K, S)])).countP
        (fun p => p.1 == K ++ "/" ++ S) = 1 ∧
    List.lookup (K ++ "/" ++ S) (readBackupIndex (markSessionsNeedingBackup st
        [(K, S), (K, S)])) = some (.bool true) ∧
    (∀ k v, List.lookup k (readBackupIndex st) = some v →
      ∃ v2, List.lookup k (readBackupIndex (markSessionsNeedingBackup st [(K, S)]))
        = some v2 ∧ (v2 = v ∨ v2 = .bool true)) := by
  have hnd0 : ((readBackupIndex st).map Prod.fst).Nodup := by
    unfold readBackupIndex getJsonItem
    rcases hidx with h | h | ⟨fl, h, hfl⟩
    · rw [h]; exact List.nodup_nil
    · rw [h]; exact List.nodup_nil
    · rw [h]; exact hfl
  have h1 : readBackupIndex (markSessionsNeedingBackup st [(K, S)])
      = objSet (readBackupIndex st) (K ++ "/" ++ S) (.bool true) := by
    rw [readBackupIndex_after_mark]
    rfl
  have h2 : readBackupIndex (markSessionsNeedingBackup
        (markSessionsNeedingBackup st [(K, S)]) [(K, S)])
      = objSet (objSet (readBackupIndex st) (K ++ "/" ++ S) (.bool true))
          (K ++ "/" ++ S) (.bool true) := by
    rw [readBackupIndex_after_mark, h1]
    rfl
  have h3 : readBackupIndex (markSessionsNeedingBackup st [(K, S), (K, S)])
      = objSet (objSet (readBackupIndex st) (K ++ "/" ++ S) (.bool true))
          (K ++ "/" ++ S) (.bool true) := by
    rw [readBackupIndex_after_mark]
    rfl
  have hnd1 := nodup_keys_objSet (readBackupIndex st) (K ++ "/" ++ S) (.bool true) hnd0
  refine ⟨?_, ?_, ?_, ?_, ?_⟩
  · rw [h2]; exact countP_objSet_self _ _ _ hnd1
  · rw [h2]; exact lookup_objSet_self _ _ _
  · rw [h3]; exact countP_objSet_self _ _ _ hnd1
  · rw [h3]; exact lookup_objSet_self _ _ _
  · intro k v hk
    by_cases hkk : k = K ++ "/" ++ S
    · subst hkk
      exact ⟨.bool true, by rw [h1]; exact lookup_objSet_self _ _ _, Or.inr rfl⟩
    · exact ⟨v, by rw [h1, lookup_objSet_ne _ _ _ _ hkk]; exact hk, Or.inl rfl⟩

/-- Witness for C8 on a fresh store whose backup index is still absent:
the first-ever marking already exercises the idempotency conclusions. -/
theorem markSessionsNeedingBackupIdempotentMonotone_witness :
    (readBackupIndex (markSessionsNeedingBackup (markSessionsNeedingBackup ([] : Store)
        [("K", "S")]) [("K", "S")])).countP (fun p => p.1 == "K" ++ "/" ++ "S") = 1 ∧
    List.lookup ("K" ++ "/" ++ "S") (readBackupIndex (markSessionsNeedingBackup
        (markSessionsNeedingBackup ([] : Store) [("K", "S")]) [("K", "S")]))
      = some (.bool true) ∧
    (readBackupIndex (markSessionsNeedingBackup ([] : Store)
        [("K", "S"), ("K", "S")])).countP (fun p => p.1 == "K" ++ "/" ++ "S") = 1 ∧
    List.lookup ("K" ++ "/" ++ "S") (readBackupIndex (markSessionsNeedingBackup ([] : Store)
        [("K", "S"), ("K", "S")])) = some (.bool true) ∧
    (∀ k v, List.lookup k (readBackupIndex ([] : Store)) = some v →
      ∃ v2, List.lookup k (readBackupIndex (markSessionsNeedingBackup ([] : Store)
        [("K", "S")])) = some v2 ∧ (v2 = v ∨ v2 = .bool true)) :=
  markSessionsNeedingBackupIdempotentMonotone [] "K" "S" (Or.inl rfl)

/-! ## Counting lemmas -/

theorem foldl_count_eq_sum {α : Type} (p : α → Bool) (f : α → Nat) (l : List α) (c : Nat) :
    l.foldl (fun acc x => if p x then acc + f x else acc) c
      = c + (l.map (fun x => if p x then f x else 0)).sum := by
  induction l generalizing c with
  | nil => simp
  | cons x t ih =>
    cases hp : p x with
    | true => simp [List.foldl_cons, hp, ih, Nat.add_assoc]
    | false => simp [List.foldl_cons, hp, ih]

theorem countVal_eq_sum (st : Store) :
    (countEndToEndSessions st).1
      = ((st.map Prod.fst).map (fun k =>
          if strStartsWith k (keyEndToEndSessions "") then
            (jsObjEntries (jsNullish (getJsonItem st k) (.obj []))).length
          else 0)).sum := by
  show (st.map Prod.fst).foldl
      (fun c k => if strStartsWith k (keyEndToEndSessions "") then
        c + (jsObjEntries (jsNullish (getJsonItem st k) (.obj []))).length else c) 0 = _
  rw [foldl_count_eq_sum (fun k => strStartsWith k (keyEndToEndSessions ""))
    (fun k => (jsObjEntries (jsNullish (getJsonItem st k) (.obj []))).length)]
  rw [Nat.zero_add]

theorem map_fst_filter (st : Store) (k : String) :
    (storRemove st k).map Prod.fst = (st.map Prod.fst).filter (fun x => !(x == k)) := by
  unfold storRemove
  induction st with
  | nil => rfl
  | cons p t ih => cases hb : p.1 == k <;> simp [List.filter_cons, hb, ih]

theorem sum_map_erase_key (l : List String) (k : String) (f : String → Nat)
    (hnd : l.Nodup) (hm : k ∈ l) :
    (l.map f).sum = ((l.filter (fun x => !(x == k))).map f).sum + f k := by
  induction l with
  | nil => cases hm
  | cons a t ih =>
    rcases List.mem_cons.mp hm with rfl | hmt
    · have hk2 : k ∉ t := (List.nodup_cons.mp hnd).1
      have hfilter : t.filter (fun x => !(x == k)) = t :=
        List.filter_eq_self.mpr fun x hx => by
          have hne : ¬ x = k := fun he => hk2 (he ▸ hx)
          rw [beq_eq_false_iff_ne.mpr hne]
          rfl
      simp [List.filter_cons, hfilter, Nat.add_comm]
    · have hnd2 := (List.nodup_cons.mp hnd).2
      by_cases ha : a = k
      · exact absurd hmt (ha ▸ (List.nodup_cons.mp hnd).1)
      · simp [List.filter_cons, beq_eq_false_iff_ne.mpr ha, ih hnd2 hmt, Nat.add_assoc]

theorem mem_keys_of_lookup_some {β : Type} {st : List (String × β)} {k : String} {v : β}
    (h : List.lookup k st = some v) : k ∈ st.map Prod.fst := by
  induction st with
  | nil => cases h
  | cons p t ih =>
    cases hk : k == p.1 with
    | true => exact List.mem_map.mpr ⟨p, List.mem_cons_self p t, (beq_iff_eq.mp hk).symm⟩
    | false =>
      rw [List.lookup, hk] at h
      exact List.mem_cons_of_mem _ (ih h)

/-! ## The no-empty-per-device-container invariant -/

/-- One stored raw value is an empty per-device session container. -/
def isEmptySessionsRecord : RawVal → Bool
  | .valid (.obj []) => true
  | _ => false

/-- No key under the per-device sessions prefix holds an empty container. -/
def noEmptySessionContainers (st : Store) : Bool :=
  st.all (fun p => !(strStartsWith p.1 (keyEndToEndSessions "") && isEmptySessionsRecord p.2))

theorem noEmpty_storSet (st : Store) (k : String) (v : RawVal)
    (h : noEmptySessionContainers st = true)
    (hv : isEmptySessionsRecord v = false) :
    noEmptySessionContainers (storSet st k v) = true := by
  unfold noEmptySessionContainers at h ⊢
  unfold storSet
  by_cases ha : st.any (fun p => p.1 == k) = true
  · rw [if_pos ha]
    rw [List.all_eq_true] at h ⊢
    intro p hp
    rw [List.mem_map] at hp
    obtain ⟨q, hq, rfl⟩ := hp
    by_cases hb : (q.1 == k) = true
    · rw [if_pos hb]
      show (!(strStartsWith k (keyEndToEndSessions "") && isEmptySessionsRecord v)) = true
      rw [hv, Bool.and_false]
      rfl
    · rw [if_neg hb]
      exact h q hq
  · rw [if_neg ha]
    rw [List.all_eq_true] at h ⊢
    intro p hp
    rcases List.mem_append.mp hp with h1 | h1
    · exact h p h1
    · simp only [List.mem_singleton] at h1
      subst h1
      show (!(strStartsWith k (keyEndToEndSessions "") && isEmptySessionsRecord v)) = true
      rw [hv, Bool.and_false]
      rfl

theorem noEmpty_storRemove (st : Store) (k : String)
    (h : noEmptySessionContainers st = true) :
    noEmptySessionContainers (storRemove st k) = true := by
  unfold noEmptySessionContainers at h ⊢
  unfold storRemove
  rw [List.all_eq_true] at h ⊢
  intro p hp
  exact h p (List.mem_of_mem_filter hp)

theorem objSet_ne_nil (l : List (String × JVal)) (k : String) (v : JVal) :
    objSet l k v ≠ [] := by
  unfold objSet
  split
  · rename_i h
    intro he
    rw [List.map_eq_nil_iff] at he
    subst he
    simp at h
  · intro he
    rcases List.append_eq_nil.mp he with ⟨h1, h2⟩
    simp at h2

theorem isEmpty_false_of_ne_nil (l : List (String × JVal)) (h : ¬ l = []) :
    isEmptySessionsRecord (.valid (.obj l)) = false := by
  cases l with
  | nil => exact absurd rfl h
  | cons a t => rfl

theorem noEmpty_storeSession (st : Store) (dk sid : String) (info : JVal)
    (h : noEmptySessionContainers st = true) :
    noEmptySessionContainers (storeEndToEndSession st dk sid info) = true := by
  unfold storeEndToEndSession setJsonItem
  exact noEmpty_storSet _ _ _ h (isEmpty_false_of_ne_nil _ (objSet_ne_nil _ _ _))

theorem noEmpty_deleteBatch (st : Store) (pairs : List (String × String))
    (h : noEmptySessionContainers st = true) :
    noEmptySessionContainers (deleteEndToEndSessionsBatch st pairs) = true := by
  induction pairs generalizing st with
  | nil => exact h
  | cons pr rest ih =>
    obtain ⟨dk, sid⟩ := pr
    simp only [deleteEndToEndSessionsBatch]
    apply ih
    by_cases hz : (objDelete (_getEndToEndSessions st dk) sid).length = 0
    · rw [if_pos hz]
      exact noEmpty_storRemove _ _ h
    · rw [if_neg hz]
      unfold setJsonItem
      exact noEmpty_storSet _ _ _ h
        (isEmpty_false_of_ne_nil _ (fun he => hz (by rw [he]; rfl)))

/-- C4: deleting the last remaining session of a device removes the
per-device key entirely (no empty mapping is stored) and the session count
drops by exactly that one session, so the device no longer contributes;
and the session-writing operations preserve the invariant that no empty
per-device session container is ever persisted. -/
theorem deleteLastOlmSessionRemovesDeviceKey (st : Store) (dk sid : String) (w : JVal)
    (st2 : Store) (dk2 sid2 : String) (info : JVal) (pairs : List (String × String))
    (hnd : (st.map Prod.fst).Nodup)
    (hst : storGet st (keyEndToEndSessions dk) = some (RawVal.valid (.obj [(sid, w)])))
    (hne : noEmptySessionContainers st2 = true) :
    storGet (deleteEndToEndSessionsBatch st [(dk, sid)]) (keyEndToEndSessions dk) = none ∧
    (countEndToEndSessions st).1
      = (countEndToEndSessions (deleteEndToEndSessionsBatch st [(dk, sid)])).1 + 1 ∧
    noEmptySessionContainers (storeEndToEndSession st2 dk2 sid2 info) = true ∧
    noEmptySessionContainers (deleteEndToEndSessionsBatch st2 pairs) = true := by
  have hd : _getEndToEndSessions st dk = [(sid, fixSession w)] := by
    rw [getSessions_of_obj st dk _ hst]
    rfl
  have hdel0 : objDelete (_getEndToEndSessions st dk) sid = [] := by
    rw [hd]
    simp [objDelete, List.filter]
  have hstep : deleteEndToEndSessionsBatch st [(dk, sid)]
      = storRemove st (keyEndToEndSessions dk) := by
    rw [deleteBatch_single, hdel0]
    rfl
  refine ⟨?_, ?_, noEmpty_storeSession st2 dk2 sid2 info hne,
    noEmpty_deleteBatch st2 pairs hne⟩
  · rw [hstep]
    exact storGet_remove_self st _
  · rw [hstep]
    have hmem : keyEndToEndSessions dk ∈ st.map Prod.fst := mem_keys_of_lookup_some hst
    rw [countVal_eq_sum st, countVal_eq_sum (storRemove st (keyEndToEndSessions dk)),
      map_fst_filter]
    have hcong : ((st.map Prod.fst).filter (fun x => !(x == keyEndToEndSessions dk))).map
        (fun k => if strStartsWith k (keyEndToEndSessions "") then
          (jsObjEntries (jsNullish
            (getJsonItem (storRemove st (keyEndToEndSessions dk)) k) (.obj []))).length
        else 0)
        = ((st.map Prod.fst).filter (fun x => !(x == keyEndToEndSessions dk))).map
        (fun k => if strStartsWith k (keyEndToEndSessions "") then
          (jsObjEntries (jsNullish (getJsonItem st k) (.obj []))).length
        else 0) := by
      refine List.map_congr_left fun x hx => ?_
      have hxb := (List.mem_filter.mp hx).2
      have hxne : ¬ x = keyEndToEndSessions dk := by
        intro he
        rw [he] at hxb
        simp at hxb
      rw [getJsonItem_remove_ne st _ _ hxne]
    rw [hcong]
    have hkey : (if strStartsWith (keyEndToEndSessions dk) (keyEndToEndSessions "") then
        (jsObjEntries (jsNullish
          (getJsonItem st (keyEndToEndSessions dk)) (.obj []))).length
      else 0) = 1 := by
      rw [if_pos (strStartsWith_of_data _ _ _ (keySessions_data dk))]
      unfold getJsonItem
      rw [hst]
      rfl
    rw [sum_map_erase_key (st.map Prod.fst) (keyEndToEndSessions dk) _ hnd hmem, hkey]

/-- Witness for C4 on a one-device, one-session store. -/
theorem deleteLastOlmSessionRemovesDeviceKey_witness :
    storGet (deleteEndToEndSessionsBatch
        [(keyEndToEndSessions "D", RawVal.valid (.obj [("s1", .obj [("session", .str "p")])]))]
        [("D", "s1")]) (keyEndToEndSessions "D") = none ∧
    (countEndToEndSessions
        [(keyEndToEndSessions "D",
          RawVal.valid (.obj [("s1", .obj [("session", .str "p")])]))]).1
      = (countEndToEndSessions (deleteEndToEndSessionsBatch
          [(keyEndToEndSessions "D",
            RawVal.valid (.obj [("s1", .obj [("session", .str "p")])]))]
          [("D", "s1")])).1 + 1 ∧
    noEmptySessionContainers (storeEndToEndSession [] "E" "s9" (.str "q")) = true ∧
    noEmptySessionContainers (deleteEndToEndSessionsBatch [] [("E", "s9")]) = true :=
  deleteLastOlmSessionRemovesDeviceKey _ "D" "s1" (.obj [("session", .str "p")])
    [] "E" "s9" (.str "q") [("E", "s9")] (by simp) rfl rfl
